import Mathlib

/-!
# Verification of the pyIOT Component/Thing runtime

Shallow embedding of the core of the `pyIOT` library (files
`pyIOT/Component.py` and `pyIOT/Thing.py`) together with proofs about the
dispatch, translation, write-loop, read-buffer and reconciliation logic.

Conventions used throughout:
* Python dictionaries keyed by strings are modelled as association lists
  (`List (String × _)`) with insertion-order semantics (`aset` replaces an
  existing binding in place, appends new bindings at the end — exactly what
  CPython `dict` assignment does).
* Python exceptions raised by translation handlers (`ValueError`,
  `TypeError`, `AssertionError`) are modelled with `Except String`.
* Uncaught exceptions that kill a thread or the reconciliation loop
  (`KeyError`, `IndexError`) are modelled by an `Except.error`
  result of the whole operation.
* The ordered scan of `cls.__mro__` and of each class `__dict__`
  (most-derived class first, declaration order within a class) is modelled
  by a flat, ordered rule list.
-/

namespace PyIOT

/-- A property value.  pyIOT property values are opaque scalars
(strings such as `'ON'`/`'OFF'`/`'UNKNOWN'`, numbers such as a volume,
booleans such as `muted`). -/
inductive Value where
  | s (v : String)
  | i (n : Int)
  | b (v : Bool)
  deriving DecidableEq, Repr

/-- Association-list lookup, modelling Python `d[k]` / `k in d`. -/
def alookup {α : Type} : List (String × α) → String → Option α
  | [], _ => none
  | (k, v) :: rest, p => if k = p then some v else alookup rest p

/-- Association-list update, modelling Python `d[k] = v` (replace the
existing binding in place, otherwise append at the end). -/
def aset {α : Type} : List (String × α) → String → α → List (String × α)
  | [], p, v => [(p, v)]
  | (k, w) :: rest, p, v =>
    if k = p then (p, v) :: rest else (k, w) :: aset rest p v

/-- A message put on the Thing's event queue by `Component._updateThing`
(`Component.py` line 71): `{'source': name, 'action': 'UPDATE',
'property': property, 'value': value}`. -/
structure Event where
  source : String
  property : String
  value : Value
  deriving DecidableEq, Repr

/-- One `componentToProperty` rule (`Component.py` lines 147-152): a
compiled regex, the property name(s) (one per capture group) and the
decorated handler method.
`pmatch` is the embedding of `cre.match`: Python `re` match semantics,
anchored at the start of the line only; on success it yields the list of
captured substrings `match.group(1), match.group(2), …`.
`handler` embeds the decorated method `(property, capturedText) → value`;
`Except.error` models a raised `ValueError`/`TypeError`/`AssertionError`. -/
structure C2PRule where
  pmatch : String → Option (List String)
  props : List String
  handler : String → String → Except String Value

/-- `Component._componentToProperty` (`Component.py` lines 195-204): scan
the rules in MRO/declaration order and return the first rule whose compiled
pattern matches (`cre.match(value)`), together with the match's groups. -/
def componentToProperty : List C2PRule → String → Option (C2PRule × List String)
  | [], _ => none
  | r :: rest, line =>
    match r.pmatch line with
    | some groups => some (r, groups)
    | none => componentToProperty rest line

/-- The per-group loop of `Component._processComponentResponse`
(`Component.py` lines 263-272).  Walks the property-name list in step with
the captured groups (`mval = match.group(i+1)`).
* a handler exception (`ValueError`, `AssertionError`, `TypeError`) is
  caught and logged, skipping only that group's update;
* running out of groups models the uncaught `IndexError` of
  `match.group(i+1)`, and a missing cache entry models the uncaught
  `KeyError` of `self.properties[property[i]]` — either kills the read
  thread, so the whole computation returns `Except.error`
  (events already pushed before the crash are not tracked in that case);
* when the decoded value differs from the cached one,
  `Component._updateThing` (lines 69-74) pushes an event to the Thing and
  updates the local property cache. -/
def processGroups (compName : String) (handler : String → String → Except String Value) :
    List String → List String → List (String × Value) →
    Except String (List Event × List (String × Value))
  | [], _, cache => .ok ([], cache)
  | _ :: _, [], _ => .error "IndexError"
  | p :: ps, m :: ms, cache =>
    match handler p m with
    | .error _ => processGroups compName handler ps ms cache
    | .ok xval =>
      match alookup cache p with
      | none => .error "KeyError"
      | some cur =>
        if cur = xval then
          processGroups compName handler ps ms cache
        else
          match processGroups compName handler ps ms (aset cache p xval) with
          | .error e => .error e
          | .ok (evs, cfin) => .ok (⟨compName, p, xval⟩ :: evs, cfin)

/-- `Component._processComponentResponse` (`Component.py` lines 257-272):
decode one raw device line.  If no rule matches, nothing happens (`if ret:`
falls through); otherwise each capture group is translated and diffed
against the property cache. -/
def processComponentResponse (compName : String) (rules : List C2PRule)
    (line : String) (cache : List (String × Value)) :
    Except String (List Event × List (String × Value)) :=
  match componentToProperty rules line with
  | none => .ok ([], cache)
  | some (r, groups) => processGroups compName r.handler r.props groups cache

/-- A command template with one placeholder, e.g. `'PWR {0}\r'`:
`cmd.format(arg)` splices `arg` between `pre` and `post`. -/
structure CmdTemplate where
  pre : String
  post : String
  deriving DecidableEq, Repr

/-- Python `cmd.format(arg)` for a single-placeholder template. -/
def formatT (t : CmdTemplate) (arg : String) : String := t.pre ++ arg ++ t.post

/-- One `propertyToComponent` rule (`Component.py` lines 187-191): a
property name, a command template, and the decorated handler
`(newValue) → formattedArgument`; `Except.error` models a raised
`ValueError`/`TypeError`/`AssertionError`. -/
structure P2CRule where
  property : String
  template : CmdTemplate
  handler : Value → Except String String

/-- `Component._propertyToComponent` (`Component.py` lines 206-212): scan
the rules in MRO/declaration order and return the first rule registered for
the given property name, if any. -/
def propertyToComponent : List P2CRule → String → Option P2CRule
  | [], _ => none
  | r :: rest, p => if r.property = p then some r else propertyToComponent rest p

/-- A message in a Component's mailbox (`_componentQueue`) or in the
Thing's event queue: `{'action': 'UPDATE', 'source': …, 'property': …,
'value': …}` or `{'action': 'EXIT'}`. -/
inductive Message where
  | update (source property : String) (value : Value)
  | exitMsg
  deriving DecidableEq, Repr

/-- The value returned by `Component.queryStatus` (`Component.py` lines
388-403): `None`, a single command string, or a list of command strings. -/
inductive QueryResult where
  | noneQ
  | strQ (s : String)
  | listQ (l : List String)

/-- The commands actually sent for a `queryStatus()` result
(`Component.py` lines 313-317): `if qs:` drops falsy results (`None`, the
empty string, the empty list); a bare string is wrapped in a list. -/
def qsCommands : QueryResult → List String
  | .noneQ => []
  | .strQ s => if s = "" then [] else [s]
  | .listQ l => if l = [] then [] else l

/-- The query-sending body of the `queue.Empty` handler (`Component.py`
lines 316-320): write each query; if the write returned an inline response
(synchronous device, `if val:`), run it through the decode path.
`device` maps each written string to the inline response `Component.write`
returns (`''` for an asynchronous device). -/
def runQueries (compName : String) (rules : List C2PRule) (device : String → String) :
    List String → List (String × Value) →
    Except String (List Event × List (String × Value))
  | [], cache => .ok ([], cache)
  | q :: rest, cache =>
    let resp := device q
    if resp = "" then runQueries compName rules device rest cache
    else
      match processComponentResponse compName rules resp cache with
      | .error e => .error e
      | .ok (evs1, c1) =>
        match runQueries compName rules device rest c1 with
        | .error e => .error e
        | .ok (evs2, c2) => .ok (evs1 ++ evs2, c2)

/-- Observable outcome of one iteration of `Component._writeLoop`. -/
structure IterOut where
  /-- the mailbox after the iteration (dequeued messages removed) -/
  mailboxAfter : List Message
  /-- every string passed to `Component.write`, in order -/
  written : List String
  /-- every event pushed to the Thing's event queue, in order -/
  events : List Event
  /-- the property cache after the iteration -/
  cacheAfter : List (String × Value)
  /-- whether `queryStatus()` was invoked -/
  queried : Bool
  /-- whether `time.sleep(5)` ran (the not-ready backoff) -/
  slept : Bool
  /-- whether the `'{0} has no property that matches {1}'` warning fired -/
  warnedNoRule : Bool
  /-- whether the loop returned because of an `EXIT` message -/
  exited : Bool
  deriving DecidableEq, Repr

/-- One iteration of `Component._writeLoop` (`Component.py` lines 274-322).
* If `ready()` is false: print, `time.sleep(5)`, `raise queue.Empty` — the
  handler at line 311 then invokes `queryStatus()` and writes the resulting
  queries.  Nothing is dequeued.
* If `ready()` is true: dequeue one message (an empty mailbox models the
  5-second `queue.Empty` timeout, which also lands in the query handler).
  `EXIT` returns from the loop.  `UPDATE` looks up the property-to-device
  rule: no rule → log a warning; rule present → format and write the
  command unless the handler raises, then decode any inline response. -/
def writeLoopIter (compName : String) (c2p : List C2PRule) (p2c : List P2CRule)
    (ready : Bool) (qs : QueryResult) (device : String → String)
    (mailbox : List Message) (cache : List (String × Value)) :
    Except String IterOut :=
  if ready then
    match mailbox with
    | [] =>
      match runQueries compName c2p device (qsCommands qs) cache with
      | .error e => .error e
      | .ok (evs, c') => .ok ⟨[], qsCommands qs, evs, c', true, false, false, false⟩
    | .exitMsg :: rest => .ok ⟨rest, [], [], cache, false, false, false, true⟩
    | .update _src prop v :: rest =>
      match propertyToComponent p2c prop with
      | none => .ok ⟨rest, [], [], cache, false, false, true, false⟩
      | some r =>
        match r.handler v with
        | .error _ => .ok ⟨rest, [], [], cache, false, false, false, false⟩
        | .ok arg =>
          let cmd := formatT r.template arg
          let resp := device cmd
          if resp = "" then .ok ⟨rest, [cmd], [], cache, false, false, false, false⟩
          else
            match processComponentResponse compName c2p resp cache with
            | .error e => .error e
            | .ok (evs, c') => .ok ⟨rest, [cmd], evs, c', false, false, false, false⟩
  else
    match runQueries compName c2p device (qsCommands qs) cache with
    | .error e => .error e
    | .ok (evs, c') => .ok ⟨mailbox, qsCommands qs, evs, c', true, true, false, false⟩

/-! ## Thing reconciliation loop (`Thing.py`) -/

/-- The payload of `shadowUpdate` (`Thing.py` lines 177-183):
`{'state': {'reported': …, 'desired': …}}`. -/
structure Payload where
  reported : List (String × Value)
  desired : List (String × Value)
  deriving DecidableEq, Repr

/-- One `updateComponent` call routed to an owning Component
(`Thing.py` lines 165 and 173). -/
structure Routed where
  comp : String
  property : String
  value : Value
  deriving DecidableEq, Repr

/-- Outcome of one cycle of `Thing._main` over a batch of messages:
either the loop returns (`EXIT`), or an uncaught `KeyError` on
`self._propertyHandlers[…]` / `self._localShadow[…]` kills it, or the cycle
completes, possibly publishing one consolidated shadow update.
`shadowAfter` is `_localShadow` at the end of the cycle. -/
inductive BatchOutcome where
  | exited (routed : List Routed)
  | keyError (property : String) (routed : List Routed)
  | completed (routed : List Routed) (published : Option Payload)
      (shadowAfter : List (String × Value))
  deriving DecidableEq, Repr

/-- Routing of `onChange` results (`Thing.py` lines 170-173):
`self._propertyHandlers[k].updateComponent(k, v)` for each pair; a
property with no owning Component raises `KeyError` (uncaught). -/
def routeChanges (owners : List (String × String)) :
    List (String × Value) → Except String (List Routed)
  | [] => .ok []
  | (k, v) :: rest =>
    match alookup owners k with
    | none => .error k
    | some c =>
      match routeChanges owners rest with
      | .error e => .error e
      | .ok rs => .ok (⟨c, k, v⟩ :: rs)

/-- The diff scan of `Thing._main` (`Thing.py` lines 178-183): walk
`updatedProperties`, comparing each value with `self._localShadow[property]`
(`KeyError` if absent, uncaught); `updateNeeded` becomes true as soon as any
value differs. -/
def anyDiff (shadow : List (String × Value)) :
    List (String × Value) → Except String Bool
  | [] => .ok false
  | (p, v) :: rest =>
    match alookup shadow p with
    | none => .error p
    | some w =>
      match anyDiff shadow rest with
      | .error e => .error e
      | .ok b => .ok (decide (w ≠ v) || b)

/-- End of a `Thing._main` cycle (`Thing.py` lines 175-185): if any
property in `updatedProperties` differs from `_localShadow`, publish one
update whose `reported` and `desired` views are both the whole
`updatedProperties` map.  `_main` contains no assignment to `_localShadow`,
so the shadow is returned unchanged. -/
def diffPublish (shadow upd : List (String × Value)) :
    Except String (Option Payload × List (String × Value)) :=
  match anyDiff shadow upd with
  | .error e => .error e
  | .ok true => .ok (some ⟨upd, upd⟩, shadow)
  | .ok false => .ok (none, shadow)

/-- The message-processing loop of `Thing._main` (`Thing.py` lines
155-185) over one drained batch.
* `EXIT` returns from `_main` at once, dropping the rest of the batch.
* An `UPDATE` from `'__thing__'` (the IOT service) is routed to
  `self._propertyHandlers[property]` — `KeyError` if no Component owns it.
* An `UPDATE` from a Component accumulates into `updatedProperties`, then
  `onChange(updatedProperties)` runs and each returned pair is routed to
  its owning Component (again `KeyError` if unowned).
After the batch, the diff/publish step runs. -/
def processBatch (owners : List (String × String))
    (onChange : List (String × Value) → List (String × Value))
    (shadow : List (String × Value)) :
    List Message → List (String × Value) → List Routed → BatchOutcome
  | [], upd, routed =>
    match diffPublish shadow upd with
    | .error p => .keyError p routed
    | .ok (pub, sh) => .completed routed pub sh
  | .exitMsg :: _, _, routed => .exited routed
  | .update src p v :: rest, upd, routed =>
    if src = "__thing__" then
      match alookup owners p with
      | none => .keyError p routed
      | some c => processBatch owners onChange shadow rest upd (routed ++ [⟨c, p, v⟩])
    else
      let upd' := aset upd p v
      match routeChanges owners (onChange upd') with
      | .error k => .keyError k routed
      | .ok rs => processBatch owners onChange shadow rest upd' (routed ++ rs)

/-- One full cycle of `Thing._main` on a drained batch of messages
(empty `updatedProperties`, nothing routed yet). -/
def mainCycle (owners : List (String × String))
    (onChange : List (String × Value) → List (String × Value))
    (shadow : List (String × Value)) (batch : List Message) : BatchOutcome :=
  processBatch owners onChange shadow batch [] []

/-- `Thing._registerComponent` (`Thing.py` lines 66-74): for every property
the component exposes, warn if the name is already in `_localShadow`, then
unconditionally overwrite `_localShadow[property]` and
`_propertyHandlers[property]`.  The returned list collects the property
names for which the duplicate-registration warning fired. -/
def registerProps (compName : String) :
    List (String × Value) → List (String × Value) → List (String × String) →
    List (String × Value) × List (String × String) × List String
  | [], shadow, owners => (shadow, owners, [])
  | (p, v) :: rest, shadow, owners =>
    let w := if (alookup shadow p).isSome then [p] else []
    let (s', o', ws') :=
      registerProps compName rest (aset shadow p v) (aset owners p compName)
    (s', o', w ++ ws')

/-! ## Stream reading (`Component._readresponse`) -/

/-- Index of the first occurrence of `eol` as a contiguous substring of the
buffer, modelling Python `buffer.find(eol)` (`-1` becomes `none`). -/
def findSub (eol : List Nat) : List Nat → Option Nat
  | [] => if List.isPrefixOf eol [] then some 0 else none
  | b :: rest =>
    if List.isPrefixOf eol (b :: rest) then some 0
    else (findSub eol rest).map (fun i => i + 1)

/-- The read loop of `Component._readresponse` (`Component.py` lines
330-344).  The stream is modelled as a finite trace of read results: each
`(t, c)` is one `self._stream.read()` call returning chunk `c` at time `t`
(an empty chunk models a poll that returned nothing).
* a non-empty chunk is appended to the buffer and refreshes
  `last_activity`; if `eol` now occurs, everything before its first
  occurrence is returned;
* an empty chunk returns the partial buffer when
  `time.time() - last_activity > timeout`;
* after the trace ends the stream stays silent, so the inactivity timeout
  eventually fires and the buffer is returned. -/
def readAux (eol : List Nat) (timeout : Nat) :
    List (Nat × List Nat) → Nat → List Nat → List Nat
  | [], _, buffer => buffer
  | (t, c) :: rest, lastActivity, buffer =>
    if c = [] then
      if timeout < t - lastActivity then buffer
      else readAux eol timeout rest lastActivity buffer
    else
      let buffer' := buffer ++ c
      match findSub eol buffer' with
      | some i => buffer'.take i
      | none => readAux eol timeout rest t buffer'

/-- `Component._readresponse` (`Component.py` lines 330-344): start with an
empty buffer and `last_activity = time.time()` (the entry time). -/
def readresponse (eol : List Nat) (timeout startTime : Nat)
    (events : List (Nat × List Nat)) : List Nat :=
  readAux eol timeout events startTime []

/-! ## Concrete rules from `example.py`, used as witnesses -/

/-- `projectorComponent.toProjPowerState` (`example.py` lines 133-137):
translate the two-digit power code of the projector into the
`projPowerState` property value, raising `ValueError` otherwise. -/
def toProjPowerState (property value : String) : Except String Value :=
  match value with
  | "00" => .ok (.s "OFF")
  | "01" => .ok (.s "ON")
  | "02" => .ok (.s "WARMING")
  | "03" => .ok (.s "COOLING")
  | "04" => .ok (.s "STANDBY")
  | "05" => .ok (.s "ABNORMAL")
  | _ => .error (value ++ " is not a valid value for property " ++ property)

/-- `re` match semantics of the compiled pattern `'^PWR=([0-9]{2})$'`
(`example.py` line 133): because of the `$` anchor a match must cover the
whole line — `PWR=` followed by exactly two digits, captured.
This is also the spec's "matches the entire raw device line" reading of
the anchor-free pattern `'PWR=([0-9]{2})'`. -/
def pwrExact (line : String) : Option (List String) :=
  match line.data with
  | ['P', 'W', 'R', '=', d1, d2] =>
    if d1.isDigit && d2.isDigit then some [String.mk [d1, d2]] else none
  | _ => none

/-- `re.match` semantics of the compiled pattern `'PWR=([0-9]{2})'` with
no terminal anchor — a legal argument to `Component.componentToProperty`:
`cre.match(value)` anchors at the start of the line only, so any line
beginning with `PWR=` and two digits matches, whatever follows. -/
def pwrAtStart (line : String) : Option (List String) :=
  match line.data with
  | 'P' :: 'W' :: 'R' :: '=' :: d1 :: d2 :: _ =>
    if d1.isDigit && d2.isDigit then some [String.mk [d1, d2]] else none
  | _ => none

/-- `projectorComponent.projPowerStateToProj` (`example.py` lines 147-150):
only `'ON'` and `'OFF'` are valid values, passed through verbatim. -/
def projPowerStateToProj (value : Value) : Except String String :=
  match value with
  | .s "ON" => .ok "ON"
  | .s "OFF" => .ok "OFF"
  | _ => .error "not a valid powerState"

/-- The `propertyToComponent('projPowerState', 'PWR {0}\r')` rule of
`projectorComponent` (`example.py` lines 147-150). -/
def projPowerRule : P2CRule :=
  ⟨"projPowerState", ⟨"PWR ", "\r"⟩, projPowerStateToProj⟩

/-! ## Association-list lemmas -/

theorem alookup_aset_self {α : Type} (l : List (String × α)) (p : String) (v : α) :
    alookup (aset l p v) p = some v := by
  induction l with
  | nil => simp [aset, alookup]
  | cons kv rest ih =>
    obtain ⟨k, w⟩ := kv
    by_cases hk : k = p
    · simp [aset, hk, alookup]
    · simp [aset, hk, alookup, ih]

theorem alookup_aset_ne {α : Type} (l : List (String × α)) (p q : String) (v : α)
    (h : q ≠ p) : alookup (aset l p v) q = alookup l q := by
  have hpq : p ≠ q := Ne.symm h
  induction l with
  | nil => simp [aset, alookup, hpq]
  | cons kv rest ih =>
    obtain ⟨k, w⟩ := kv
    by_cases hk : k = p
    · subst hk
      simp [aset, alookup, hpq]
    · simp [aset, hk, alookup, ih]

theorem aset_of_alookup_eq {α : Type} (l : List (String × α)) (p : String) (v : α)
    (h : alookup l p = some v) : aset l p v = l := by
  induction l with
  | nil => simp [alookup] at h
  | cons kv rest ih =>
    obtain ⟨k, w⟩ := kv
    by_cases hk : k = p
    · subst hk
      simp [alookup] at h
      simp [aset, h]
    · simp [alookup, hk] at h
      simp [aset, hk, ih h]

/-! ## Claim C1 — readiness gating in the write loop -/

/-- C1, counterexample to the claim as stated.  With `ready() = False` and
a `queryStatus()` that returns the single query `'PWR?\r'` (as the
projector component of `example.py` does), one not-ready iteration of
`Component._writeLoop` *does* invoke `queryStatus()` and *does* write its
query to the device — contradicting "writes no command to the device, and
does not invoke queryStatus()".  The mailbox is left untouched. -/
theorem claim1_counterexample :
    writeLoopIter "proj" [] [] false (.strQ "PWR?\r") (fun _ => "")
        [.update "__thing__" "projPowerState" (.s "ON")] [] =
      .ok ⟨[.update "__thing__" "projPowerState" (.s "ON")], ["PWR?\r"], [], [],
        true, true, false, false⟩ ∧
    (["PWR?\r"] : List String) ≠ [] :=
  ⟨rfl, by decide⟩

/-- C1 (amended): whenever `ready()` returns false, one iteration of the
write loop dequeues nothing from the mailbox, sleeps the fixed 5-second
backoff, and then — via the `queue.Empty` handler — invokes `queryStatus()`
and writes every resulting query command to the device before re-checking
readiness; it does not exit. -/
theorem claim1_theorem (compName : String) (c2p : List C2PRule) (p2c : List P2CRule)
    (qs : QueryResult) (device : String → String) (mailbox : List Message)
    (cache : List (String × Value)) (o : IterOut)
    (h : writeLoopIter compName c2p p2c false qs device mailbox cache = .ok o) :
    o.mailboxAfter = mailbox ∧ o.slept = true ∧ o.queried = true ∧
    o.written = qsCommands qs ∧ o.exited = false := by
  unfold writeLoopIter at h
  simp only [Bool.false_eq_true, if_false] at h
  cases hq : runQueries compName c2p device (qsCommands qs) cache with
  | error e => rw [hq] at h; cases h
  | ok pr =>
    obtain ⟨evs, c'⟩ := pr
    rw [hq] at h
    cases h
    exact ⟨rfl, rfl, rfl, rfl, rfl⟩

/-- Concrete outcome of a not-ready iteration, used to instantiate C1. -/
def iterOutNotReady : IterOut :=
  ⟨[.update "__thing__" "projPowerState" (.s "ON")], ["PWR?\r"], [], [],
    true, true, false, false⟩

theorem claim1_witness :
    iterOutNotReady.mailboxAfter = [.update "__thing__" "projPowerState" (.s "ON")] ∧
    iterOutNotReady.slept = true ∧ iterOutNotReady.queried = true ∧
    iterOutNotReady.written = qsCommands (.strQ "PWR?\r") ∧
    iterOutNotReady.exited = false :=
  claim1_theorem "proj" [] [] (.strQ "PWR?\r") (fun _ => "")
    [.update "__thing__" "projPowerState" (.s "ON")] [] iterOutNotReady rfl

/-! ## Claim C10 — Update with no property-to-device rule -/

/-- C10: an `Update` whose property has no `propertyToComponent` rule
anywhere in the Component's class hierarchy makes the write loop log the
`'has no property that matches'` warning and do nothing else: nothing is
written, the property cache is untouched, no event is pushed, and the loop
neither exits nor queries. -/
theorem claim10_theorem (compName : String) (c2p : List C2PRule) (p2c : List P2CRule)
    (qs : QueryResult) (device : String → String) (src prop : String) (v : Value)
    (rest : List Message) (cache : List (String × Value))
    (h : propertyToComponent p2c prop = none) :
    writeLoopIter compName c2p p2c true qs device (.update src prop v :: rest) cache =
      .ok ⟨rest, [], [], cache, false, false, true, false⟩ := by
  unfold writeLoopIter
  simp [h]

theorem claim10_witness :
    writeLoopIter "proj" [] [projPowerRule] true .noneQ (fun _ => "")
        [.update "__thing__" "volume" (.i 50)] [("projPowerState", .s "ON")] =
      .ok ⟨[], [], [], [("projPowerState", .s "ON")], false, false, true, false⟩ :=
  claim10_theorem "proj" [] [projPowerRule] .noneQ (fun _ => "") "__thing__"
    "volume" (.i 50) [] [("projPowerState", .s "ON")] rfl

/-! ## Claim C6 — property-to-device translation in the write loop -/

/-- C6: for an `Update` whose property has a property-to-device rule,
(1) a value the handler accepts causes exactly the single command
`template.format(handler(value))` to be written; (2) a value on which the
handler raises causes nothing to be written, no event, and leaves the
property cache (and the device, to which nothing is sent) unchanged. -/
theorem claim6_theorem :
    (∀ (compName : String) (c2p : List C2PRule) (p2c : List P2CRule)
        (qs : QueryResult) (device : String → String) (src prop : String)
        (v : Value) (rest : List Message) (cache : List (String × Value))
        (r : P2CRule) (arg : String),
      propertyToComponent p2c prop = some r → r.handler v = .ok arg →
      ∀ o, writeLoopIter compName c2p p2c true qs device
          (.update src prop v :: rest) cache = .ok o →
        o.written = [formatT r.template arg]) ∧
    (∀ (compName : String) (c2p : List C2PRule) (p2c : List P2CRule)
        (qs : QueryResult) (device : String → String) (src prop : String)
        (v : Value) (rest : List Message) (cache : List (String × Value))
        (r : P2CRule) (e : String),
      propertyToComponent p2c prop = some r → r.handler v = .error e →
      writeLoopIter compName c2p p2c true qs device
          (.update src prop v :: rest) cache =
        .ok ⟨rest, [], [], cache, false, false, false, false⟩) := by
  constructor
  · intro compName c2p p2c qs device src prop v rest cache r arg hr hh o ho
    unfold writeLoopIter at ho
    simp only [if_true, hr, hh] at ho
    by_cases hresp : device (formatT r.template arg) = ""
    · simp only [hresp, if_pos rfl] at ho
      cases ho
      rfl
    · simp only [if_neg hresp] at ho
      cases hp : processComponentResponse compName c2p (device (formatT r.template arg)) cache with
      | error e => rw [hp] at ho; cases ho
      | ok pr =>
        obtain ⟨evs, c'⟩ := pr
        rw [hp] at ho
        cases ho
        rfl
  · intro compName c2p p2c qs device src prop v rest cache r e hr hh
    unfold writeLoopIter
    simp [hr, hh]

theorem claim6_witness :
    (IterOut.written ⟨[], ["PWR OFF\r"], [], [("projPowerState", .s "ON")],
        false, false, false, false⟩ =
      [formatT projPowerRule.template "OFF"]) ∧
    (writeLoopIter "proj" [] [projPowerRule] true .noneQ (fun _ => "")
        [.update "__thing__" "projPowerState" (.s "BOGUS")] [("projPowerState", .s "ON")] =
      .ok ⟨[], [], [], [("projPowerState", .s "ON")], false, false, false, false⟩) :=
  ⟨claim6_theorem.1 "proj" [] [projPowerRule] .noneQ (fun _ => "")
      "__thing__" "projPowerState" (.s "OFF") [] [("projPowerState", .s "ON")]
      projPowerRule "OFF" rfl rfl
      ⟨[], ["PWR OFF\r"], [], [("projPowerState", .s "ON")], false, false, false, false⟩ rfl,
    claim6_theorem.2 "proj" [] [projPowerRule] .noneQ (fun _ => "")
      "__thing__" "projPowerState" (.s "BOGUS") [] [("projPowerState", .s "ON")]
      projPowerRule "not a valid powerState" rfl rfl⟩

/-! ## Claim C2 — routing errors in the reconciliation loop -/

/-- True exactly when the cycle ended with an uncaught `KeyError`. -/
def isKeyErrorStop : BatchOutcome → Bool
  | .keyError _ _ => true
  | _ => false

/-- C2, counterexample to the claim as stated: with no registered
Components, an external `Update` for the property `'ghost'` does not
produce a logged-and-dropped warning — `self._propertyHandlers['ghost']`
raises an uncaught `KeyError` that terminates `Thing._main`. -/
theorem claim2_counterexample :
    mainCycle [] (fun _ => []) [] [.update "__thing__" "ghost" (.s "ON")] =
      .keyError "ghost" [] ∧
    isKeyErrorStop
      (mainCycle [] (fun _ => []) [] [.update "__thing__" "ghost" (.s "ON")]) = true :=
  ⟨rfl, rfl⟩

/-- C2 (amended): an external `Update` whose property has no owning
Component terminates the reconciliation loop with an uncaught `KeyError`
(nothing is logged and the rest of the batch is dropped); an `Exit`
message also terminates the loop; an external `Update` whose property is
owned is routed to its owner and the loop completes the cycle normally. -/
theorem claim2_theorem :
    (∀ (owners : List (String × String))
        (onChange : List (String × Value) → List (String × Value))
        (shadow : List (String × Value)) (p : String) (v : Value)
        (rest : List Message), alookup owners p = none →
      mainCycle owners onChange shadow (.update "__thing__" p v :: rest) =
        .keyError p []) ∧
    (∀ (owners : List (String × String))
        (onChange : List (String × Value) → List (String × Value))
        (shadow : List (String × Value)) (rest : List Message),
      mainCycle owners onChange shadow (.exitMsg :: rest) = .exited []) ∧
    (∀ (owners : List (String × String))
        (onChange : List (String × Value) → List (String × Value))
        (shadow : List (String × Value)) (p : String) (v : Value) (c : String),
      alookup owners p = some c →
      mainCycle owners onChange shadow [.update "__thing__" p v] =
        .completed [⟨c, p, v⟩] none shadow) := by
  refine ⟨?_, ?_, ?_⟩
  · intro owners onChange shadow p v rest h
    simp [mainCycle, processBatch, h]
  · intro owners onChange shadow rest
    simp [mainCycle, processBatch]
  · intro owners onChange shadow p v c h
    simp [mainCycle, processBatch, h, diffPublish, anyDiff]

theorem claim2_witness :
    mainCycle [] (fun _ => []) [("powerState", .s "ON")]
        [.update "__thing__" "ghost" (.s "ON"), .exitMsg] = .keyError "ghost" [] ∧
    mainCycle [("powerState", "AVM")] (fun _ => []) []
        [.exitMsg, .update "__thing__" "powerState" (.s "ON")] = .exited [] ∧
    mainCycle [("powerState", "AVM")] (fun _ => []) [("powerState", .s "UNKNOWN")]
        [.update "__thing__" "powerState" (.s "ON")] =
      .completed [⟨"AVM", "powerState", .s "ON"⟩] none [("powerState", .s "UNKNOWN")] :=
  ⟨claim2_theorem.1 [] (fun _ => []) [("powerState", .s "ON")] "ghost" (.s "ON")
      [.exitMsg] rfl,
    claim2_theorem.2.1 [("powerState", "AVM")] (fun _ => []) []
      [.update "__thing__" "powerState" (.s "ON")],
    claim2_theorem.2.2 [("powerState", "AVM")] (fun _ => [])
      [("powerState", .s "UNKNOWN")] "powerState" (.s "ON") "AVM" rfl⟩

/-! ## Claim C3 — diff and publish step -/

/-- Every property of the batch map has an entry in the local shadow
(what `_registerComponent` guarantees for Component-reported properties). -/
def allPresent (shadow upd : List (String × Value)) : Bool :=
  upd.all (fun pv => (alookup shadow pv.1).isSome)

theorem anyDiff_eq_any (shadow : List (String × Value)) :
    ∀ upd : List (String × Value), allPresent shadow upd = true →
      anyDiff shadow upd =
        .ok (upd.any (fun pv => decide (alookup shadow pv.1 ≠ some pv.2))) := by
  intro upd h
  induction upd with
  | nil => simp [anyDiff]
  | cons pv rest ih =>
    obtain ⟨p, v⟩ := pv
    simp only [allPresent, List.all_cons, Bool.and_eq_true] at h
    obtain ⟨hp, hrest⟩ := h
    obtain ⟨w, hw⟩ := Option.isSome_iff_exists.mp hp
    have hih := ih hrest
    simp only [anyDiff, hw, hih, List.any_cons]
    have hd : (decide (some w ≠ some v)) = (decide (w ≠ v)) :=
      decide_eq_decide.mpr (by simp)
    rw [hd]

/-- Modelled from the spec: the consolidated payload "covering exactly the
properties whose values changed". -/
def specChangedOnly (shadow upd : List (String × Value)) : List (String × Value) :=
  upd.filter (fun pv => decide (alookup shadow pv.1 ≠ some pv.2))

/-- Modelled from the spec: "merge the new values into localShadow". -/
def specMergedShadow (shadow upd : List (String × Value)) : List (String × Value) :=
  upd.foldl (fun s pv => aset s pv.1 pv.2) shadow

/-- A concrete local shadow: `powerState` last reported as `'ON'`,
`volume` as `50`. -/
def c3shadow : List (String × Value) := [("powerState", .s "ON"), ("volume", .i 50)]

/-- A concrete batch map: `powerState` changed to `'OFF'`, `volume`
re-reported unchanged at `50`. -/
def c3upd : List (String × Value) := [("powerState", .s "OFF"), ("volume", .i 50)]

/-- C3, counterexample to the claim as stated: with `volume` unchanged in
the batch, `Thing._main` still publishes `volume` (the payload is the whole
`updatedProperties` map, not only the changed properties), and
`_localShadow` is left exactly as it was — no merge happens. -/
theorem claim3_counterexample :
    diffPublish c3shadow c3upd = .ok (some ⟨c3upd, c3upd⟩, c3shadow) ∧
    specChangedOnly c3shadow c3upd = [("powerState", .s "OFF")] ∧
    c3upd ≠ specChangedOnly c3shadow c3upd ∧
    specMergedShadow c3shadow c3upd ≠ c3shadow := by
  exact ⟨rfl, rfl, by decide, by decide⟩

/-- C3 (amended): after a batch, if any property in `updatedProperties`
differs from `localShadow`, exactly one consolidated update is published
whose `reported` and `desired` views are both the *entire*
`updatedProperties` map (changed and unchanged properties alike);
`localShadow` itself is never modified; if no property differs, nothing is
published. -/
theorem claim3_theorem (shadow upd : List (String × Value))
    (h : allPresent shadow upd = true) :
    diffPublish shadow upd =
      .ok ((if upd.any (fun pv => decide (alookup shadow pv.1 ≠ some pv.2))
            then some ⟨upd, upd⟩ else none), shadow) := by
  unfold diffPublish
  rw [anyDiff_eq_any shadow upd h]
  by_cases hb : upd.any (fun pv => decide (alookup shadow pv.1 ≠ some pv.2)) = true
  · rw [hb]
    simp
  · simp only [Bool.not_eq_true] at hb
    rw [hb]
    simp

theorem claim3_witness :
    diffPublish c3shadow c3upd =
      .ok ((if c3upd.any (fun pv => decide (alookup c3shadow pv.1 ≠ some pv.2))
            then some ⟨c3upd, c3upd⟩ else none), c3shadow) :=
  claim3_theorem c3shadow c3upd rfl

/-! ## Claim C9 — duplicate property registration -/

/-- C9: registering a Component exposing a property name `p` that is
already present in `_localShadow` logs the duplicate-property warning but
still succeeds: the new Component's value overwrites `_localShadow[p]` and
the new Component becomes the owner in `_propertyHandlers[p]` (last
registered wins). -/
theorem claim9_theorem (shadow : List (String × Value)) (owners : List (String × String))
    (compName p : String) (v w : Value) (h : alookup shadow p = some w) :
    registerProps compName [(p, v)] shadow owners =
      (aset shadow p v, aset owners p compName, [p]) ∧
    alookup (aset shadow p v) p = some v ∧
    alookup (aset owners p compName) p = some compName := by
  refine ⟨?_, alookup_aset_self _ _ _, alookup_aset_self _ _ _⟩
  simp [registerProps, h]

theorem claim9_witness :
    registerProps "preamp" [("powerState", Value.s "UNKNOWN")]
        [("powerState", Value.s "ON")] [("powerState", "AVM")] =
      (aset [("powerState", Value.s "ON")] "powerState" (Value.s "UNKNOWN"),
        aset [("powerState", "AVM")] "powerState" "preamp", ["powerState"]) ∧
    alookup (aset [("powerState", Value.s "ON")] "powerState" (Value.s "UNKNOWN"))
        "powerState" = some (Value.s "UNKNOWN") ∧
    alookup (aset [("powerState", "AVM")] "powerState" "preamp") "powerState" =
      some "preamp" :=
  claim9_theorem [("powerState", .s "ON")] [("powerState", "AVM")]
    "preamp" "powerState" (.s "UNKNOWN") (.s "ON") rfl

/-! ## Claim C4 — device-to-property dispatch -/

/-- A `componentToProperty('projPowerState', 'PWR=([0-9]{2})')` rule whose
pattern carries no `$` end anchor — a legal argument to
`Component.componentToProperty`, which compiles any regex string. -/
def c4rule : C2PRule := ⟨pwrAtStart, ["projPowerState"], toProjPowerState⟩

/-- C4, counterexample to the claim as stated: `_componentToProperty` uses
`cre.match`, which anchors at the *start* of the line only.  The line
`'PWR=01X'` does not match the rule's pattern as a whole line
(`pwrExact` fails), yet dispatch selects the rule (the pattern matches at
the start) and a property update is produced. -/
theorem claim4_counterexample :
    pwrExact "PWR=01X" = none ∧
    componentToProperty [c4rule] "PWR=01X" = some (c4rule, ["01"]) ∧
    processComponentResponse "proj" [c4rule] "PWR=01X"
        [("projPowerState", Value.s "UNKNOWN")] =
      .ok ([⟨"proj", "projPowerState", Value.s "ON"⟩],
        [("projPowerState", Value.s "ON")]) :=
  ⟨rfl, rfl, rfl⟩

/-- C4 (amended): dispatch tries the rules in order (most-derived class
first, declaration order within a class) and selects the first rule whose
compiled pattern matches *at the start* of the raw device line (Python
`re.match`; the match covers the whole line only when the pattern carries
a terminal anchor, as all of the repository's example rules do).  A line
matching no rule's pattern at its start produces no property updates and
leaves the cache unchanged. -/
theorem claim4_theorem :
    (∀ (rules : List C2PRule) (line : String),
      (∀ r ∈ rules, r.pmatch line = none) → componentToProperty rules line = none) ∧
    (∀ (compName : String) (rules : List C2PRule) (line : String)
        (cache : List (String × Value)),
      componentToProperty rules line = none →
      processComponentResponse compName rules line cache = .ok ([], cache)) ∧
    (∀ (pre post : List C2PRule) (r : C2PRule) (line : String) (g : List String),
      (∀ r' ∈ pre, r'.pmatch line = none) → r.pmatch line = some g →
      componentToProperty (pre ++ r :: post) line = some (r, g)) := by
  refine ⟨?_, ?_, ?_⟩
  · intro rules line h
    induction rules with
    | nil => rfl
    | cons r rest ih =>
      have hr := h r (List.mem_cons_self r rest)
      simp only [componentToProperty, hr]
      exact ih (fun r' hr' => h r' (List.mem_cons_of_mem r hr'))
  · intro compName rules line cache h
    unfold processComponentResponse
    rw [h]
  · intro pre post r line g hpre hr
    induction pre with
    | nil => simp [componentToProperty, hr]
    | cons q rest ih =>
      have hq := hpre q (List.mem_cons_self q rest)
      simp only [List.cons_append, componentToProperty, hq]
      exact ih (fun r' hr' => hpre r' (List.mem_cons_of_mem q hr'))

theorem claim4_witness :
    componentToProperty [c4rule] "SOURCE=30" = none ∧
    processComponentResponse "proj" [c4rule] "SOURCE=30"
        [("projPowerState", Value.s "ON")] =
      .ok ([], [("projPowerState", Value.s "ON")]) ∧
    componentToProperty ([] ++ c4rule :: []) "PWR=00" = some (c4rule, ["00"]) :=
  ⟨claim4_theorem.1 [c4rule] "SOURCE=30"
      (by intro r hr; simp only [List.mem_singleton] at hr; subst hr; rfl),
    claim4_theorem.2.1 "proj" [c4rule] "SOURCE=30" [("projPowerState", Value.s "ON")] rfl,
    claim4_theorem.2.2 [] [] c4rule "PWR=00" ["00"]
      (by intro r' hr'; cases hr') rfl⟩

/-! ## Claim C5 — independent per-group updates -/

/-- The updates a decoded line yields, one per (property, captured group)
pair, each diffed against the *pre-decode* cache: the handler runs once per
pair; an `ok` value produces an event exactly when it differs from the
cached value; a handler error contributes nothing. -/
def decodeEvents (compName : String) (f : String → String → Except String Value)
    (cache : List (String × Value)) : List (String × String) → List Event
  | [] => []
  | (p, m) :: rest =>
    match f p m with
    | .ok v =>
      if alookup cache p = some v then decodeEvents compName f cache rest
      else ⟨compName, p, v⟩ :: decodeEvents compName f cache rest
    | .error _ => decodeEvents compName f cache rest

/-- The cache after decoding: every successfully-translated pair is written
back; failed pairs leave the cache alone. -/
def decodeCache (f : String → String → Except String Value) :
    List (String × String) → List (String × Value) → List (String × Value)
  | [], cache => cache
  | (p, m) :: rest, cache =>
    match f p m with
    | .ok v => decodeCache f rest (aset cache p v)
    | .error _ => decodeCache f rest cache

theorem decodeEvents_aset_not_mem (compName : String)
    (f : String → String → Except String Value) (p : String) (v : Value) :
    ∀ (pairs : List (String × String)) (cache : List (String × Value)),
      (∀ pair ∈ pairs, pair.1 ≠ p) →
      decodeEvents compName f (aset cache p v) pairs =
        decodeEvents compName f cache pairs := by
  intro pairs
  induction pairs with
  | nil => intro cache _; rfl
  | cons pr rest ih =>
    intro cache hne
    obtain ⟨q, m⟩ := pr
    have hq : q ≠ p := hne (q, m) (List.mem_cons_self _ _)
    have hrest : ∀ pair ∈ rest, pair.1 ≠ p :=
      fun pair hp => hne pair (List.mem_cons_of_mem _ hp)
    simp only [decodeEvents, alookup_aset_ne cache p q v hq, ih cache hrest]

theorem pg_nil (n : String) (f : String → String → Except String Value)
    (gs : List String) (cache : List (String × Value)) :
    processGroups n f [] gs cache = .ok ([], cache) := rfl

theorem pg_idx (n : String) (f : String → String → Except String Value)
    (p : String) (ps : List String) (cache : List (String × Value)) :
    processGroups n f (p :: ps) [] cache = .error "IndexError" := rfl

theorem pg_cons_error (n : String) (f : String → String → Except String Value)
    (p m e : String) (ps ms : List String) (cache : List (String × Value))
    (hf : f p m = .error e) :
    processGroups n f (p :: ps) (m :: ms) cache = processGroups n f ps ms cache := by
  simp [processGroups, hf]

theorem pg_cons_keyerr (n : String) (f : String → String → Except String Value)
    (p m : String) (v : Value) (ps ms : List String) (cache : List (String × Value))
    (hf : f p m = .ok v) (hl : alookup cache p = none) :
    processGroups n f (p :: ps) (m :: ms) cache = .error "KeyError" := by
  simp [processGroups, hf, hl]

theorem pg_cons_eq (n : String) (f : String → String → Except String Value)
    (p m : String) (v : Value) (ps ms : List String) (cache : List (String × Value))
    (hf : f p m = .ok v) (hl : alookup cache p = some v) :
    processGroups n f (p :: ps) (m :: ms) cache = processGroups n f ps ms cache := by
  simp [processGroups, hf, hl]

theorem pg_cons_ne (n : String) (f : String → String → Except String Value)
    (p m : String) (v cur : Value) (ps ms : List String) (cache : List (String × Value))
    (hf : f p m = .ok v) (hl : alookup cache p = some cur) (hcv : cur ≠ v) :
    processGroups n f (p :: ps) (m :: ms) cache =
      match processGroups n f ps ms (aset cache p v) with
      | .error e => .error e
      | .ok (evs, cfin) => .ok (⟨n, p, v⟩ :: evs, cfin) := by
  simp [processGroups, hf, hl, hcv]

theorem processGroups_alookup_of_not_mem (compName : String)
    (f : String → String → Except String Value) :
    ∀ (props groups : List String) (cache : List (String × Value))
      (evs : List Event) (c' : List (String × Value)) (q : String),
      processGroups compName f props groups cache = .ok (evs, c') →
      q ∉ props → alookup c' q = alookup cache q := by
  intro props
  induction props with
  | nil =>
    intro groups cache evs c' q hok _
    rw [pg_nil] at hok
    cases hok
    rfl
  | cons p ps ih =>
    intro groups cache evs c' q hok hq
    have hqp : q ≠ p := fun hh => hq (hh ▸ List.mem_cons_self p ps)
    have hqs : q ∉ ps := fun hh => hq (List.mem_cons_of_mem p hh)
    cases groups with
    | nil => rw [pg_idx] at hok; cases hok
    | cons m ms =>
      cases hf : f p m with
      | error e =>
        rw [pg_cons_error compName f p m e ps ms cache hf] at hok
        exact ih ms cache evs c' q hok hqs
      | ok v =>
        cases hl : alookup cache p with
        | none =>
          rw [pg_cons_keyerr compName f p m v ps ms cache hf hl] at hok
          cases hok
        | some cur =>
          by_cases hcv : cur = v
          · subst hcv
            rw [pg_cons_eq compName f p m cur ps ms cache hf hl] at hok
            exact ih ms cache evs c' q hok hqs
          · rw [pg_cons_ne compName f p m v cur ps ms cache hf hl hcv] at hok
            cases hrec : processGroups compName f ps ms (aset cache p v) with
            | error e => rw [hrec] at hok; cases hok
            | ok pr =>
              obtain ⟨evs0, c0⟩ := pr
              rw [hrec] at hok
              cases hok
              exact (ih ms (aset cache p v) _ _ q hrec hqs).trans
                (alookup_aset_ne cache p q v hqp)

theorem processGroups_nodup_eq (compName : String)
    (f : String → String → Except String Value) :
    ∀ (props groups : List String) (cache : List (String × Value)),
      props.Nodup → props.length ≤ groups.length →
      (∀ pair ∈ props.zip groups, (alookup cache pair.1).isSome) →
      processGroups compName f props groups cache =
        .ok (decodeEvents compName f cache (props.zip groups),
          decodeCache f (props.zip groups) cache) := by
  intro props
  induction props with
  | nil =>
    intro groups cache _ _ _
    simp [processGroups, decodeEvents, decodeCache]
  | cons p ps ih =>
    intro groups cache hnodup hlen hpres
    cases groups with
    | nil => simp at hlen
    | cons m ms =>
      have hnd1 : p ∉ ps := (List.nodup_cons.mp hnodup).1
      have hnd2 : ps.Nodup := (List.nodup_cons.mp hnodup).2
      have hlen2 : ps.length ≤ ms.length := by
        simpa [Nat.succ_le_succ_iff] using hlen
      have hpres1 : (alookup cache p).isSome :=
        hpres (p, m) (by simp [List.zip_cons_cons])
      have hpres2 : ∀ pair ∈ ps.zip ms, (alookup cache pair.1).isSome :=
        fun pair hp => hpres pair (by simp [List.zip_cons_cons, hp])
      obtain ⟨cur, hcur⟩ := Option.isSome_iff_exists.mp hpres1
      cases hf : f p m with
      | error e =>
        rw [pg_cons_error compName f p m e ps ms cache hf]
        simp only [List.zip_cons_cons, decodeEvents, decodeCache, hf]
        exact ih ms cache hnd2 hlen2 hpres2
      | ok v =>
        by_cases hcv : cur = v
        · subst hcv
          rw [pg_cons_eq compName f p m cur ps ms cache hf hcur]
          simp only [List.zip_cons_cons, decodeEvents, decodeCache, hf, hcur, if_pos rfl]
          rw [aset_of_alookup_eq cache p cur hcur]
          exact ih ms cache hnd2 hlen2 hpres2
        · have hpres2' : ∀ pair ∈ ps.zip ms, (alookup (aset cache p v) pair.1).isSome := by
            intro pair hp
            by_cases hpp : pair.1 = p
            · rw [hpp, alookup_aset_self]; rfl
            · rw [alookup_aset_ne cache p pair.1 v hpp]; exact hpres2 pair hp
          have hne : ∀ pair ∈ ps.zip ms, pair.1 ≠ p := by
            intro pair hp hpp
            exact hnd1 (hpp ▸ List.of_mem_zip hp |>.1)
          rw [pg_cons_ne compName f p m v cur ps ms cache hf hcur hcv,
            ih ms (aset cache p v) hnd2 hlen2 hpres2']
          simp only [List.zip_cons_cons, decodeEvents, decodeCache, hf, hcur,
            decodeEvents_aset_not_mem compName f p v (ps.zip ms) cache hne]
          rw [if_neg (fun hh => hcv (Option.some_inj.mp hh))]
          rfl

theorem processGroups_skip_error (compName : String)
    (f : String → String → Except String Value) (p m e : String)
    (herr : f p m = .error e) :
    ∀ (ps1 ms1 : List String), ps1.length = ms1.length →
      ∀ (ps2 ms2 : List String) (cache : List (String × Value)),
        processGroups compName f (ps1 ++ p :: ps2) (ms1 ++ m :: ms2) cache =
          processGroups compName f (ps1 ++ ps2) (ms1 ++ ms2) cache := by
  intro ps1
  induction ps1 with
  | nil =>
    intro ms1 hlen ps2 ms2 cache
    cases ms1 with
    | nil =>
      simp only [List.nil_append]
      exact pg_cons_error compName f p m e ps2 ms2 cache herr
    | cons n ns => simp at hlen
  | cons q qs ih =>
    intro ms1 hlen ps2 ms2 cache
    cases ms1 with
    | nil => simp at hlen
    | cons n ns =>
      have hlen2 : qs.length = ns.length := by simpa using hlen
      simp only [List.cons_append]
      cases hf : f q n with
      | error e2 =>
        rw [pg_cons_error compName f q n e2 _ _ cache hf,
          pg_cons_error compName f q n e2 _ _ cache hf]
        exact ih ns hlen2 ps2 ms2 cache
      | ok v =>
        cases hl : alookup cache q with
        | none =>
          rw [pg_cons_keyerr compName f q n v _ _ cache hf hl,
            pg_cons_keyerr compName f q n v _ _ cache hf hl]
        | some cur =>
          by_cases hcv : cur = v
          · subst hcv
            rw [pg_cons_eq compName f q n cur _ _ cache hf hl,
              pg_cons_eq compName f q n cur _ _ cache hf hl]
            exact ih ns hlen2 ps2 ms2 cache
          · rw [pg_cons_ne compName f q n v cur _ _ cache hf hl hcv,
              pg_cons_ne compName f q n v cur _ _ cache hf hl hcv,
              ih ns hlen2 ps2 ms2 (aset cache q v)]

/-- C5: when a matched rule binds N property names to N capture groups,
the handler runs exactly once per (property, group) pair and each pair
yields an independent update against the pre-decode cache (`decodeEvents`
/ `decodeCache`); and a pair on which the handler raises is simply skipped:
deleting it from the rule changes nothing for the remaining groups. -/
theorem claim5_theorem :
    (∀ (compName : String) (f : String → String → Except String Value)
        (props groups : List String) (cache : List (String × Value)),
      props.Nodup → props.length ≤ groups.length →
      (∀ pair ∈ props.zip groups, (alookup cache pair.1).isSome) →
      processGroups compName f props groups cache =
        .ok (decodeEvents compName f cache (props.zip groups),
          decodeCache f (props.zip groups) cache)) ∧
    (∀ (compName : String) (f : String → String → Except String Value)
        (p m e : String), f p m = .error e →
      ∀ (ps1 ms1 : List String), ps1.length = ms1.length →
      ∀ (ps2 ms2 : List String) (cache : List (String × Value)),
        processGroups compName f (ps1 ++ p :: ps2) (ms1 ++ m :: ms2) cache =
          processGroups compName f (ps1 ++ ps2) (ms1 ++ ms2) cache) :=
  ⟨fun compName f props groups cache =>
      processGroups_nodup_eq compName f props groups cache,
    fun compName f p m e herr =>
      processGroups_skip_error compName f p m e herr⟩

theorem claim5_witness :
    processGroups "proj" toProjPowerState ["pwrA", "pwrB"] ["01", "99"]
        [("pwrA", Value.s "UNKNOWN"), ("pwrB", Value.s "UNKNOWN")] =
      .ok (decodeEvents "proj" toProjPowerState
          [("pwrA", Value.s "UNKNOWN"), ("pwrB", Value.s "UNKNOWN")]
          (["pwrA", "pwrB"].zip ["01", "99"]),
        decodeCache toProjPowerState (["pwrA", "pwrB"].zip ["01", "99"])
          [("pwrA", Value.s "UNKNOWN"), ("pwrB", Value.s "UNKNOWN")]) ∧
    processGroups "proj" toProjPowerState (["pwrA"] ++ "pwrB" :: []) (["01"] ++ "99" :: [])
        [("pwrA", Value.s "UNKNOWN")] =
      processGroups "proj" toProjPowerState (["pwrA"] ++ []) (["01"] ++ [])
        [("pwrA", Value.s "UNKNOWN")] :=
  ⟨claim5_theorem.1 "proj" toProjPowerState ["pwrA", "pwrB"] ["01", "99"]
      [("pwrA", Value.s "UNKNOWN"), ("pwrB", Value.s "UNKNOWN")]
      (by decide) (by decide) (by decide),
    claim5_theorem.2 "proj" toProjPowerState "pwrB" "99"
      "99 is not a valid value for property pwrB" rfl
      ["pwrA"] ["01"] rfl [] [] [("pwrA", Value.s "UNKNOWN")]⟩

/-! ## Claim C7 — no-op diff suppression / idempotence -/

/-- The cache already holds every value the handler would decode: for each
(property, group) pair, if the handler succeeds its value equals the cached
one (failed pairs are unconstrained). -/
def cacheAgrees (f : String → String → Except String Value)
    (cache : List (String × Value)) : List (String × String) → Bool
  | [] => true
  | (p, m) :: rest =>
    (match f p m with
     | .ok v => decide (alookup cache p = some v)
     | .error _ => true) && cacheAgrees f cache rest

theorem processGroups_noop (n : String) (f : String → String → Except String Value) :
    ∀ (props groups : List String) (cache : List (String × Value)),
      props.length ≤ groups.length →
      cacheAgrees f cache (props.zip groups) = true →
      processGroups n f props groups cache = .ok ([], cache) := by
  intro props
  induction props with
  | nil => intro groups cache _ _; exact pg_nil n f groups cache
  | cons p ps ih =>
    intro groups cache hlen hagree
    cases groups with
    | nil => simp at hlen
    | cons m ms =>
      have hlen2 : ps.length ≤ ms.length := by
        simpa [Nat.succ_le_succ_iff] using hlen
      simp only [List.zip_cons_cons, cacheAgrees, Bool.and_eq_true] at hagree
      obtain ⟨hhead, htail⟩ := hagree
      cases hf : f p m with
      | error e =>
        rw [pg_cons_error n f p m e ps ms cache hf]
        exact ih ms cache hlen2 htail
      | ok v =>
        simp only [hf, decide_eq_true_eq] at hhead
        rw [pg_cons_eq n f p m v ps ms cache hf hhead]
        exact ih ms cache hlen2 htail

theorem processGroups_ok_le (n : String) (f : String → String → Except String Value) :
    ∀ (props groups : List String) (cache : List (String × Value))
      (pr : List Event × List (String × Value)),
      processGroups n f props groups cache = .ok pr →
      props.length ≤ groups.length := by
  intro props
  induction props with
  | nil => intro groups _ _ _; simp
  | cons p ps ih =>
    intro groups cache pr hok
    cases groups with
    | nil => rw [pg_idx] at hok; cases hok
    | cons m ms =>
      have hle : ps.length ≤ ms.length := by
        cases hf : f p m with
        | error e =>
          rw [pg_cons_error n f p m e ps ms cache hf] at hok
          exact ih ms cache pr hok
        | ok v =>
          cases hl : alookup cache p with
          | none =>
            rw [pg_cons_keyerr n f p m v ps ms cache hf hl] at hok
            cases hok
          | some cur =>
            by_cases hcv : cur = v
            · subst hcv
              rw [pg_cons_eq n f p m cur ps ms cache hf hl] at hok
              exact ih ms cache pr hok
            · rw [pg_cons_ne n f p m v cur ps ms cache hf hl hcv] at hok
              cases hrec : processGroups n f ps ms (aset cache p v) with
              | error e => rw [hrec] at hok; cases hok
              | ok pr2 => exact ih ms (aset cache p v) pr2 hrec
      simpa [Nat.succ_le_succ_iff] using hle

theorem processGroups_final_agrees (n : String)
    (f : String → String → Except String Value) :
    ∀ (props groups : List String) (cache : List (String × Value))
      (evs : List Event) (c' : List (String × Value)),
      props.Nodup →
      processGroups n f props groups cache = .ok (evs, c') →
      cacheAgrees f c' (props.zip groups) = true := by
  intro props
  induction props with
  | nil => intro groups cache evs c' _ _; rfl
  | cons p ps ih =>
    intro groups cache evs c' hnodup hok
    have hnd1 : p ∉ ps := (List.nodup_cons.mp hnodup).1
    have hnd2 : ps.Nodup := (List.nodup_cons.mp hnodup).2
    cases groups with
    | nil => rw [pg_idx] at hok; cases hok
    | cons m ms =>
      simp only [List.zip_cons_cons, cacheAgrees, Bool.and_eq_true]
      cases hf : f p m with
      | error e =>
        rw [pg_cons_error n f p m e ps ms cache hf] at hok
        exact ⟨by simp [hf], ih ms cache evs c' hnd2 hok⟩
      | ok v =>
        cases hl : alookup cache p with
        | none =>
          rw [pg_cons_keyerr n f p m v ps ms cache hf hl] at hok
          cases hok
        | some cur =>
          by_cases hcv : cur = v
          · subst hcv
            rw [pg_cons_eq n f p m cur ps ms cache hf hl] at hok
            have hpr : alookup c' p = alookup cache p :=
              processGroups_alookup_of_not_mem n f ps ms cache evs c' p hok hnd1
            exact ⟨by simp [hf, hpr, hl], ih ms cache evs c' hnd2 hok⟩
          · rw [pg_cons_ne n f p m v cur ps ms cache hf hl hcv] at hok
            cases hrec : processGroups n f ps ms (aset cache p v) with
            | error e => rw [hrec] at hok; cases hok
            | ok pr =>
              obtain ⟨evs0, c0⟩ := pr
              rw [hrec] at hok
              cases hok
              have hpr : alookup c' p = alookup (aset cache p v) p :=
                processGroups_alookup_of_not_mem n f ps ms (aset cache p v)
                  evs0 c' p hrec hnd1
              exact ⟨by simp [hf, hpr, alookup_aset_self],
                ih ms (aset cache p v) evs0 c' hnd2 hrec⟩

/-- C7: (1) if the cached value of every property a decoded line refers to
already equals the decoded value, no event is pushed to the Thing and the
cache is unchanged; (2) decoding the same line twice in a row pushes no
event at all in the second pass — at most one event per property overall. -/
theorem claim7_theorem :
    (∀ (compName : String) (rules : List C2PRule) (line : String)
        (cache : List (String × Value)) (r : C2PRule) (g : List String),
      componentToProperty rules line = some (r, g) →
      r.props.length ≤ g.length →
      cacheAgrees r.handler cache (r.props.zip g) = true →
      processComponentResponse compName rules line cache = .ok ([], cache)) ∧
    (∀ (compName : String) (rules : List C2PRule) (line : String)
        (cache : List (String × Value)) (evs : List Event)
        (c' : List (String × Value)) (r : C2PRule) (g : List String),
      componentToProperty rules line = some (r, g) → r.props.Nodup →
      processComponentResponse compName rules line cache = .ok (evs, c') →
      processComponentResponse compName rules line c' = .ok ([], c')) := by
  constructor
  · intro compName rules line cache r g hm hlen hagree
    unfold processComponentResponse
    rw [hm]
    exact processGroups_noop compName r.handler r.props g cache hlen hagree
  · intro compName rules line cache evs c' r g hm hnodup hok
    unfold processComponentResponse at hok ⊢
    rw [hm] at hok ⊢
    have hok' : processGroups compName r.handler r.props g cache = .ok (evs, c') := hok
    have hlen := processGroups_ok_le compName r.handler r.props g cache (evs, c') hok'
    have hagree :=
      processGroups_final_agrees compName r.handler r.props g cache evs c' hnodup hok'
    exact processGroups_noop compName r.handler r.props g c' hlen hagree

/-- The `componentToProperty('projPowerState', '^PWR=([0-9]{2})$')` rule of
`projectorComponent` (`example.py` lines 133-137). -/
def c7rule : C2PRule := ⟨pwrExact, ["projPowerState"], toProjPowerState⟩

theorem claim7_witness :
    processComponentResponse "proj" [c7rule] "PWR=01"
        [("projPowerState", Value.s "ON")] =
      .ok ([], [("projPowerState", Value.s "ON")]) ∧
    processComponentResponse "proj" [c7rule] "PWR=01"
        [("projPowerState", Value.s "ON")] =
      .ok ([], [("projPowerState", Value.s "ON")]) := by
  constructor
  · exact claim7_theorem.1 "proj" [c7rule] "PWR=01"
      [("projPowerState", Value.s "ON")] c7rule ["01"] rfl (by decide) rfl
  · exact claim7_theorem.2 "proj" [c7rule] "PWR=01"
      [("projPowerState", Value.s "UNKNOWN")]
      [⟨"proj", "projPowerState", Value.s "ON"⟩]
      [("projPowerState", Value.s "ON")] c7rule ["01"] rfl (by decide) rfl

/-! ## Claim C8 — read-buffer accumulation -/

/-- All bytes delivered by a read trace, in order. -/
def concatChunks : List (Nat × List Nat) → List Nat
  | [] => []
  | e :: rest => e.2 ++ concatChunks rest

/-- The `last_activity` value after consuming a trace of non-empty chunks:
the arrival time of the last chunk (or the starting value for an empty
trace). -/
def lastTime (start : Nat) : List (Nat × List Nat) → Nat
  | [] => start
  | e :: rest => lastTime e.1 rest

theorem ra_nil (eol : List Nat) (timeout last : Nat) (buf : List Nat) :
    readAux eol timeout [] last buf = buf := rfl

theorem ra_empty_fire (eol : List Nat) (timeout t last : Nat)
    (rest : List (Nat × List Nat)) (buf : List Nat) (h : timeout < t - last) :
    readAux eol timeout ((t, []) :: rest) last buf = buf := by
  simp [readAux, h]

theorem ra_found (eol : List Nat) (timeout t last : Nat) (c : List Nat)
    (rest : List (Nat × List Nat)) (buf : List Nat) (i : Nat)
    (hc : c ≠ []) (hf : findSub eol (buf ++ c) = some i) :
    readAux eol timeout ((t, c) :: rest) last buf = (buf ++ c).take i := by
  simp [readAux, hc, hf]

theorem ra_not_found (eol : List Nat) (timeout t last : Nat) (c : List Nat)
    (rest : List (Nat × List Nat)) (buf : List Nat)
    (hc : c ≠ []) (hf : findSub eol (buf ++ c) = none) :
    readAux eol timeout ((t, c) :: rest) last buf =
      readAux eol timeout rest t (buf ++ c) := by
  simp [readAux, hc, hf]

theorem fs_nil_pos (eol : List Nat) (he : List.isPrefixOf eol [] = true) :
    findSub eol [] = some 0 := by
  simp [findSub, he]

theorem fs_nil_neg (eol : List Nat) (he : ¬ List.isPrefixOf eol [] = true) :
    findSub eol [] = none := by
  simp [findSub, he]

theorem fs_cons_pos (eol : List Nat) (b : Nat) (rest : List Nat)
    (he : List.isPrefixOf eol (b :: rest) = true) :
    findSub eol (b :: rest) = some 0 := by
  simp [findSub, he]

theorem fs_cons_neg (eol : List Nat) (b : Nat) (rest : List Nat)
    (he : ¬ List.isPrefixOf eol (b :: rest) = true) :
    findSub eol (b :: rest) = (findSub eol rest).map (fun i => i + 1) := by
  simp [findSub, he]

theorem findSub_some_bound (eol : List Nat) :
    ∀ (l : List Nat) (i : Nat), findSub eol l = some i →
      i + eol.length ≤ l.length := by
  intro l
  induction l with
  | nil =>
    intro i h
    by_cases he : List.isPrefixOf eol [] = true
    · rw [fs_nil_pos eol he] at h
      cases h
      have heol : eol = [] :=
        List.prefix_nil.mp (List.isPrefixOf_iff_prefix.mp he)
      simp [heol]
    · rw [fs_nil_neg eol he] at h
      cases h
  | cons b rest ih =>
    intro i h
    by_cases he : List.isPrefixOf eol (b :: rest) = true
    · rw [fs_cons_pos eol b rest he] at h
      cases h
      simpa using (List.isPrefixOf_iff_prefix.mp he).length_le
    · rw [fs_cons_neg eol b rest he] at h
      cases hrec : findSub eol rest with
      | none => rw [hrec] at h; cases h
      | some j =>
        rw [hrec] at h
        cases h
        have := ih j hrec
        simp only [List.length_cons]
        omega

theorem findSub_append_some (eol : List Nat) :
    ∀ (a b : List Nat) (i : Nat), findSub eol a = some i →
      findSub eol (a ++ b) = some i := by
  intro a
  induction a with
  | nil =>
    intro b i h
    by_cases he : List.isPrefixOf eol [] = true
    · rw [fs_nil_pos eol he] at h
      cases h
      have heol : eol = [] :=
        List.prefix_nil.mp (List.isPrefixOf_iff_prefix.mp he)
      subst heol
      cases b with
      | nil => exact fs_nil_pos [] he
      | cons x xs =>
        exact fs_cons_pos [] x xs
          (List.isPrefixOf_iff_prefix.mpr (List.nil_prefix))
    · rw [fs_nil_neg eol he] at h
      cases h
  | cons x xs ih =>
    intro b i h
    rw [List.cons_append]
    by_cases he : List.isPrefixOf eol (x :: xs) = true
    · rw [fs_cons_pos eol x xs he] at h
      cases h
      have hpre : eol <+: x :: (xs ++ b) := by
        have h1 := (List.isPrefixOf_iff_prefix.mp he).trans (List.prefix_append (x :: xs) b)
        simpa using h1
      exact fs_cons_pos eol x (xs ++ b) (List.isPrefixOf_iff_prefix.mpr hpre)
    · rw [fs_cons_neg eol x xs he] at h
      cases hrec : findSub eol xs with
      | none => rw [hrec] at h; cases h
      | some j =>
        rw [hrec] at h
        cases h
        have hb := findSub_some_bound eol xs j hrec
        have hne : ¬ List.isPrefixOf eol (x :: (xs ++ b)) = true := by
          intro hp
          apply he
          apply List.isPrefixOf_iff_prefix.mpr
          refine List.prefix_of_prefix_length_le
            (List.isPrefixOf_iff_prefix.mp hp) ?_ ?_
          · exact List.prefix_append (x :: xs) b
          · simp only [List.length_cons]
            omega
        rw [fs_cons_neg eol x (xs ++ b) hne, ih b j hrec]
        rfl

theorem readAux_finds_eol (eol : List Nat) (timeout : Nat) :
    ∀ (events : List (Nat × List Nat)) (last : Nat) (buf : List Nat) (i : Nat),
      (∀ e ∈ events, e.2 ≠ []) →
      findSub eol buf = none →
      findSub eol (buf ++ concatChunks events) = some i →
      readAux eol timeout events last buf =
        (buf ++ concatChunks events).take i := by
  intro events
  induction events with
  | nil =>
    intro last buf i _ hnone hsome
    simp only [concatChunks, List.append_nil] at hsome
    rw [hnone] at hsome
    cases hsome
  | cons e rest ih =>
    intro last buf i hne hnone hsome
    obtain ⟨t, c⟩ := e
    have hc : c ≠ [] := hne (t, c) (List.mem_cons_self _ _)
    have hrest : ∀ e ∈ rest, e.2 ≠ [] :=
      fun e he => hne e (List.mem_cons_of_mem _ he)
    have hsome' : findSub eol ((buf ++ c) ++ concatChunks rest) = some i := by
      simpa [concatChunks, List.append_assoc] using hsome
    cases hfb : findSub eol (buf ++ c) with
    | some j =>
      rw [ra_found eol timeout t last c rest buf j hc hfb]
      have hj := findSub_append_some eol (buf ++ c) (concatChunks rest) j hfb
      rw [hsome'] at hj
      cases hj
      have hb := findSub_some_bound eol (buf ++ c) i hfb
      rw [show buf ++ concatChunks ((t, c) :: rest) =
          (buf ++ c) ++ concatChunks rest by simp [concatChunks]]
      exact (List.take_append_of_le_length (by omega)).symm
    | none =>
      rw [ra_not_found eol timeout t last c rest buf hc hfb]
      rw [show buf ++ concatChunks ((t, c) :: rest) =
          (buf ++ c) ++ concatChunks rest by simp [concatChunks]]
      exact ih t (buf ++ c) i hrest hfb hsome'

theorem readAux_timeout_fires (eol : List Nat) (timeout : Nat) :
    ∀ (good : List (Nat × List Nat)) (t : Nat) (rest : List (Nat × List Nat))
      (last : Nat) (buf : List Nat),
      (∀ e ∈ good, e.2 ≠ []) →
      findSub eol (buf ++ concatChunks good) = none →
      timeout < t - lastTime last good →
      readAux eol timeout (good ++ (t, []) :: rest) last buf =
        buf ++ concatChunks good := by
  intro good
  induction good with
  | nil =>
    intro t rest last buf _ hnone htime
    simp only [concatChunks, List.append_nil, List.nil_append]
    exact ra_empty_fire eol timeout t last rest buf htime
  | cons e good' ih =>
    intro t rest last buf hne hnone htime
    obtain ⟨te, ce⟩ := e
    have hc : ce ≠ [] := hne (te, ce) (List.mem_cons_self _ _)
    have hgood' : ∀ e ∈ good', e.2 ≠ [] :=
      fun e he => hne e (List.mem_cons_of_mem _ he)
    have hnone' : findSub eol ((buf ++ ce) ++ concatChunks good') = none := by
      simpa [concatChunks, List.append_assoc] using hnone
    have hfb : findSub eol (buf ++ ce) = none := by
      cases hfb : findSub eol (buf ++ ce) with
      | none => rfl
      | some j =>
        have hj := findSub_append_some eol (buf ++ ce) (concatChunks good') j hfb
        rw [hnone'] at hj
        cases hj
    simp only [List.cons_append]
    rw [ra_not_found eol timeout te last ce (good' ++ (t, []) :: rest) buf hc hfb]
    rw [show buf ++ concatChunks ((te, ce) :: good') =
        (buf ++ ce) ++ concatChunks good' by simp [concatChunks]]
    exact ih t rest te (buf ++ ce) hgood' hnone' htime

/-- C8: `_readresponse` accumulates chunks into a buffer; (1) if the
end-of-line marker occurs in the delivered bytes (and data keeps arriving),
the bytes before its first occurrence are returned; (2) if the stream goes
quiet for longer than the inactivity timeout before any marker arrived,
whatever partial buffer has accumulated (possibly empty) is returned. -/
theorem claim8_theorem :
    (∀ (eol : List Nat) (timeout startTime : Nat)
        (events : List (Nat × List Nat)) (i : Nat),
      eol ≠ [] →
      (∀ e ∈ events, e.2 ≠ []) →
      findSub eol (concatChunks events) = some i →
      readresponse eol timeout startTime events = (concatChunks events).take i) ∧
    (∀ (eol : List Nat) (timeout startTime t : Nat)
        (good rest : List (Nat × List Nat)),
      (∀ e ∈ good, e.2 ≠ []) →
      findSub eol (concatChunks good) = none →
      timeout < t - lastTime startTime good →
      readresponse eol timeout startTime (good ++ (t, []) :: rest) =
        concatChunks good) := by
  constructor
  · intro eol timeout startTime events i heol hne hsome
    have hnil : findSub eol [] = none := by
      simp only [findSub]
      rw [if_neg (fun hp =>
        heol (List.prefix_nil.mp (List.isPrefixOf_iff_prefix.mp hp)))]
    have := readAux_finds_eol eol timeout events startTime [] i hne hnil
      (by simpa using hsome)
    simpa [readresponse] using this
  · intro eol timeout startTime t good rest hne hnone htime
    have := readAux_timeout_fires eol timeout good t rest startTime [] hne
      (by simpa using hnone) htime
    simpa [readresponse] using this

theorem claim8_witness :
    readresponse [10] 5 0 [(1, [80, 87]), (2, [82, 10, 99])] =
      (concatChunks [(1, [80, 87]), (2, [82, 10, 99])]).take 3 ∧
    readresponse [10] 5 0 ([(1, [80])] ++ (9, []) :: []) =
      concatChunks [(1, [80])] :=
  ⟨claim8_theorem.1 [10] 5 0 [(1, [80, 87]), (2, [82, 10, 99])] 3
      (by decide) (by decide) rfl,
    claim8_theorem.2 [10] 5 0 9 [(1, [80])] [] (by decide) rfl (by decide)⟩

end PyIOT
